import Mathlib

/-!
Shallow embedding of `scripts/core/joint_converter.py` (class `JointConverter`):
the sequential triangle-bisection joint solver that turns an ordered chain of
P-points (anchor positions) into a chain of J-points (joint positions).

Python floats are modelled by real numbers; `numpy` 3-vectors by the `Vec3`
structure; exceptions (`ValueError`, `IndexError`) by `Except String`;
the external `scipy.optimize.minimize_scalar(..., method=bounded)` call by an
abstract bounded scalar minimizer (`Minimizer`), since the specification
states that any bounded bracketing minimizer is acceptable there.
-/

noncomputable section

set_option maxHeartbeats 1000000

/-- A 3-component real vector, modelling a `numpy` array of length 3. -/
@[ext]
structure Vec3 where
  x : ℝ
  y : ℝ
  z : ℝ

instance : Inhabited Vec3 := ⟨⟨0, 0, 0⟩⟩

/-- Componentwise difference of 3-vectors (`a - b` on numpy arrays). -/
def Vec3.sub (a b : Vec3) : Vec3 := ⟨a.x - b.x, a.y - b.y, a.z - b.z⟩

/-- Componentwise sum of 3-vectors (`a + b` on numpy arrays). -/
def Vec3.add (a b : Vec3) : Vec3 := ⟨a.x + b.x, a.y + b.y, a.z + b.z⟩

/-- Scalar multiple of a 3-vector (`t * v` on numpy arrays). -/
def Vec3.smul (t : ℝ) (v : Vec3) : Vec3 := ⟨t * v.x, t * v.y, t * v.z⟩

/-- Division of a 3-vector by a scalar (`v / c` on numpy arrays). -/
def Vec3.divScalar (v : Vec3) (c : ℝ) : Vec3 := ⟨v.x / c, v.y / c, v.z / c⟩

/-- Dot product (`np.dot`). -/
def Vec3.dot (a b : Vec3) : ℝ := a.x * b.x + a.y * b.y + a.z * b.z

/-- Euclidean norm (`np.linalg.norm`). -/
def Vec3.norm (v : Vec3) : ℝ := Real.sqrt (v.dot v)

/-- The clamp `np.clip(v, lo, hi)` on a scalar. -/
def np_clip (v lo hi : ℝ) : ℝ := min (max v lo) hi

/-- `JointConverter.angle_between_vectors`: angle between two vectors in
degrees, with the cosine argument clipped to `[-1, 1]` before `arccos`, and
angle `0` returned when the product of the norms is zero. -/
def angle_between_vectors (v1 v2 : Vec3) : ℝ :=
  let dot_product := v1.dot v2
  let norms := v1.norm * v2.norm
  if norms = 0 then 0
  else Real.arccos (np_clip (dot_product / norms) (-1) 1) * 180 / Real.pi

/-- The closure `angle_difference(z)` inside `optimize_first_joint`: the
candidate first joint is `(0, 0, z)` and the objective is the absolute
difference of the two incidence angles of the triangle `P1, J1, P2`. -/
def first_joint_objective (p1 p2 : Vec3) (z : ℝ) : ℝ :=
  let j1 : Vec3 := ⟨0, 0, z⟩
  let p1_j1 := j1.sub p1
  let p1_p2 := p2.sub p1
  let p2_j1 := j1.sub p2
  let p2_p1 := p1.sub p2
  |angle_between_vectors p1_j1 p1_p2 - angle_between_vectors p2_j1 p2_p1|

/-- The closure `angle_difference(t)` inside `optimize_joint`: the candidate
joint is `j_prev + t * direction_unit` and the objective is the absolute
difference of the two incidence angles at `p_curr` and at `p_prev`. -/
def joint_objective (j_prev p_prev p_curr direction_unit : Vec3) (t : ℝ) : ℝ :=
  let j_curr := j_prev.add (Vec3.smul t direction_unit)
  let p_curr_j := j_curr.sub p_curr
  let p_curr_p_prev := p_prev.sub p_curr
  let p_prev_j := j_curr.sub p_prev
  let p_prev_p_curr := p_curr.sub p_prev
  |angle_between_vectors p_curr_j p_curr_p_prev -
    angle_between_vectors p_prev_j p_prev_p_curr|

/-- Abstract bounded scalar minimizer, standing for the external library call
`scipy.optimize.minimize_scalar(objective, bounds=(lo, hi), method=bounded)`.
The specification states that any bracketing scalar minimizer respecting the
bound is acceptable; the one property relied on is that the returned abscissa
`run f lo hi` lies in the closed search interval. -/
structure Minimizer where
  run : (ℝ → ℝ) → ℝ → ℝ → ℝ
  run_mem : ∀ f lo hi, lo ≤ hi → lo ≤ run f lo hi ∧ run f lo hi ≤ hi

/-- The mutable state of a `JointConverter` object: the loaded P-points and
the accumulated J-points. -/
structure JointConverter where
  points : List Vec3
  joints : List Vec3

/-- `JointConverter.optimize_first_joint` with its default bounds
`(-0.5, 0.5)`: raises `ValueError` when fewer than 2 points are loaded,
otherwise minimizes the first-triangle angle difference over `z` in
`[-0.5, 0.5]`, appends `J1 = (0, 0, z)` to the joints and returns it. -/
def optimize_first_joint (M : Minimizer) (s : JointConverter) :
    Except String (JointConverter × Vec3) :=
  match s.points with
  | p1 :: p2 :: _ =>
      let z := M.run (first_joint_objective p1 p2) (-0.5) 0.5
      let j1 : Vec3 := ⟨0, 0, z⟩
      .ok ({ s with joints := s.joints ++ [j1] }, j1)
  | _ => .error "Need at least 2 points to optimize first joint"

/-- The committed first joint value: `(0, 0, z)` with `z` the abscissa
returned by the bounded minimizer of `first_joint_objective p1 p2` over
`[-0.5, 0.5]`. -/
def first_joint (M : Minimizer) (p1 p2 : Vec3) : Vec3 :=
  ⟨0, 0, M.run (first_joint_objective p1 p2) (-0.5) 0.5⟩

/-- The committed interior joint value: starting from the previous committed
joint `j_prev`, move by `t` along the normalized direction from `j_prev`
through the pivot anchor `p_prev`, with `t` the abscissa returned by the
bounded minimizer of `joint_objective` over `[-2, 2]`. -/
def joint_step (M : Minimizer) (j_prev p_prev p_curr : Vec3) : Vec3 :=
  let direction := p_prev.sub j_prev
  let direction_unit := direction.divScalar direction.norm
  let t := M.run (joint_objective j_prev p_prev p_curr direction_unit) (-2) 2
  j_prev.add (Vec3.smul t direction_unit)

/-- `JointConverter.optimize_joint` with its default bounds `(-2, 2)`:
index `0` delegates to `optimize_first_joint`; otherwise it raises
`ValueError` when fewer than `joint_index + 2` points are loaded, reads the
pivot anchor `points[joint_index]`, the base anchor `points[joint_index + 1]`
and the previous joint `joints[joint_index - 1]` (an out-of-range joint read
is Python's `IndexError`), commits `joint_step` and appends it. -/
def optimize_joint (M : Minimizer) (s : JointConverter) (joint_index : ℕ) :
    Except String (JointConverter × Vec3) :=
  if joint_index = 0 then
    optimize_first_joint M s
  else if s.points.length < joint_index + 2 then
    .error "Need more points to optimize this joint"
  else
    match s.points[joint_index]?, s.points[joint_index + 1]?,
        s.joints[joint_index - 1]? with
    | some p_prev, some p_curr, some j_prev =>
        let j_curr := joint_step M j_prev p_prev p_curr
        .ok ({ s with joints := s.joints ++ [j_curr] }, j_curr)
    | _, _, _ => .error "IndexError"

/-- The loop `for i in range(len(self.points) - 1): self.optimize_joint(i)`
inside `calculate_j_points_from_isaac_p_points`, as a recursion on the number
of remaining iterations, carrying the current loop index. -/
def run_joint_loop (M : Minimizer) :
    ℕ → ℕ → JointConverter → Except String JointConverter
  | _, 0, s => .ok s
  | i, c + 1, s =>
      match optimize_joint M s i with
      | .error e => .error e
      | .ok (s', _) => run_joint_loop M (i + 1) c s'

/-- `JointConverter.calculate_j_points_from_isaac_p_points` (the solve
entry point): with fewer than 2 loaded points it prints a diagnostic and
returns the empty list without touching the stored joints; otherwise it
resets the joints, runs `optimize_joint` for `i = 0 .. n-2`, appends a final
joint equal to the last loaded point, and returns a copy of the joints. -/
def calculate_j_points_from_isaac_p_points (M : Minimizer) (s : JointConverter) :
    Except String (JointConverter × List Vec3) :=
  if s.points.length < 2 then
    .ok (s, [])
  else
    match run_joint_loop M 0 (s.points.length - 1) { s with joints := [] } with
    | .error e => .error e
    | .ok s2 =>
        match s2.points.getLast? with
        | some final_j_point =>
            let joints := s2.joints ++ [final_j_point]
            .ok ({ s2 with joints := joints }, joints)
        | none => .error "IndexError"

/-- `JointConverter.get_j_points_as_tuples`: the stored joints as a list of
coordinate triples. -/
def get_j_points_as_tuples (s : JointConverter) : List (ℝ × ℝ × ℝ) :=
  s.joints.map fun j => (j.x, j.y, j.z)

/-- The joint committed by loop iteration `i` of the solve entry point, as a
function of the loaded points alone: iteration `0` places the first joint
from the first two points, and iteration `i + 1` steps from the previous
committed joint using anchors `i + 1` and `i + 2`. -/
def nth_joint (M : Minimizer) (ps : List Vec3) : ℕ → Vec3
  | 0 => first_joint M (ps[0]?.getD default) (ps[1]?.getD default)
  | i + 1 =>
      joint_step M (nth_joint M ps i) (ps[i + 1]?.getD default)
        (ps[i + 2]?.getD default)

/-- The full joint list produced by a successful solve on points `ps`:
the `ps.length - 1` joints committed by the loop, then the terminal joint
equal to the last point. -/
def solve_joints (M : Minimizer) (ps : List Vec3) : List Vec3 :=
  (List.range (ps.length - 1)).map (nth_joint M ps) ++
    [ps[ps.length - 1]?.getD default]

/-- A concrete bounded scalar minimizer used to instantiate the abstract
minimizer on sample inputs: it always returns the lower search bound. -/
def loMinimizer : Minimizer where
  run := fun _ lo _ => lo
  run_mem := fun _ lo _ h => ⟨le_refl lo, h⟩

/-- A sample converter state with a single loaded point and a joint left
over from an earlier successful solve. -/
def oneJointState : JointConverter :=
  ⟨[⟨1, 0, 0⟩], [⟨0, 0, 7⟩]⟩

/-- A sample converter state with three loaded points and no joints. -/
def threePointState : JointConverter :=
  ⟨[⟨1, 0, 0⟩, ⟨0, 1, 0⟩, ⟨0, 0, 2⟩], []⟩

end

/-- Loop iteration `m` of the solve, started from the state whose joints are
exactly the first `m` committed joints, succeeds and commits `nth_joint m`. -/
theorem optimize_joint_spec (M : Minimizer) (ps : List Vec3) (m : ℕ)
    (hm : m + 2 ≤ ps.length) :
    optimize_joint M ⟨ps, (List.range m).map (nth_joint M ps)⟩ m =
      .ok (⟨ps, (List.range (m + 1)).map (nth_joint M ps)⟩, nth_joint M ps m) := by
  cases m with
  | zero =>
      match ps, hm with
      | p1 :: p2 :: rest, _ =>
          simp [optimize_joint, optimize_first_joint, List.range_succ,
            nth_joint, first_joint]
  | succ k =>
      have h1 : k + 1 < ps.length := by omega
      have h2 : k + 2 < ps.length := by omega
      have hp1 : ps[k + 1]? = some ps[k + 1] := List.getElem?_eq_getElem h1
      have hp2 : ps[k + 2]? = some ps[k + 2] := List.getElem?_eq_getElem h2
      have hj : ((List.range (k + 1)).map (nth_joint M ps))[k]? =
          some (nth_joint M ps k) := by
        rw [List.getElem?_map, List.getElem?_range (by omega)]
        rfl
      rw [optimize_joint]
      dsimp only
      rw [if_neg (by omega), if_neg (by omega)]
      simp only [Nat.add_sub_cancel]
      rw [hp1, hp2, hj]
      dsimp only
      have hnth : nth_joint M ps (k + 1) =
          joint_step M (nth_joint M ps k) ps[k + 1] ps[k + 2] := by
        rw [nth_joint, hp1, hp2]
        rfl
      rw [← hnth]
      have hrange : (List.range (k + 1 + 1)).map (nth_joint M ps) =
          (List.range (k + 1)).map (nth_joint M ps) ++ [nth_joint M ps (k + 1)] := by
        rw [List.range_succ, List.map_append, List.map_singleton]
      rw [hrange]

/-- Running the remaining `c` loop iterations starting at index `m`, from the
state holding the first `m` committed joints, yields the state holding the
first `m + c` committed joints. -/
theorem run_joint_loop_spec (M : Minimizer) (ps : List Vec3) :
    ∀ c m, m + c = ps.length - 1 → 2 ≤ ps.length →
    run_joint_loop M m c ⟨ps, (List.range m).map (nth_joint M ps)⟩ =
      .ok ⟨ps, (List.range (m + c)).map (nth_joint M ps)⟩ := by
  intro c
  induction c with
  | zero => intro m _ _; simp [run_joint_loop]
  | succ c ih =>
      intro m hc h2
      rw [run_joint_loop]
      rw [optimize_joint_spec M ps m (by omega)]
      dsimp only
      have := ih (m + 1) (by omega) h2
      rw [this]
      have : m + 1 + c = m + (c + 1) := by omega
      rw [this]

/-- Bridge between the imperative solve entry point and the closed-form
joint list: on a state with at least two loaded points, the solve succeeds,
and both the returned list and the stored joints are `solve_joints` of the
loaded points. -/
theorem calculate_spec (M : Minimizer) (s : JointConverter)
    (h : 2 ≤ s.points.length) :
    calculate_j_points_from_isaac_p_points M s =
      .ok (⟨s.points, solve_joints M s.points⟩, solve_joints M s.points) := by
  obtain ⟨ps, js⟩ := s
  simp only at h
  rw [calculate_j_points_from_isaac_p_points]
  simp only
  rw [if_neg (by omega)]
  have hloop := run_joint_loop_spec M ps (ps.length - 1) 0 (by omega) h
  simp only [List.range_zero, List.map_nil, Nat.zero_add] at hloop
  rw [hloop]
  dsimp only
  have hlast : ps.getLast? = some ps[ps.length - 1] := by
    rw [List.getLast?_eq_getElem? ps, List.getElem?_eq_getElem (by omega)]
  rw [hlast]
  dsimp only
  have hsj : solve_joints M ps =
      (List.range (ps.length - 1)).map (nth_joint M ps) ++ [ps[ps.length - 1]] := by
    rw [solve_joints, List.getElem?_eq_getElem (by omega)]
    rfl
  rw [hsj]

/-- The solve output has one committed joint per loop iteration plus the
terminal joint: its length is the number of loaded points. -/
theorem solve_joints_length (M : Minimizer) (ps : List Vec3)
    (h : 1 ≤ ps.length) : (solve_joints M ps).length = ps.length := by
  simp [solve_joints]
  omega

/-- Reading the solve output below the terminal position returns the
corresponding committed joint. -/
theorem solve_joints_getElem? (M : Minimizer) (ps : List Vec3) (i : ℕ)
    (h : i < ps.length - 1) :
    (solve_joints M ps)[i]? = some (nth_joint M ps i) := by
  rw [solve_joints, List.getElem?_append_left (by simpa using h),
    List.getElem?_map, List.getElem?_range h]
  rfl

/-- The committed joint of loop iteration `m` depends only on the loaded
points at positions `0 .. m + 1`. -/
theorem nth_joint_congr (M : Minimizer) (ps ps' : List Vec3) :
    ∀ m, (∀ j, j ≤ m + 1 → ps[j]? = ps'[j]?) →
      nth_joint M ps m = nth_joint M ps' m := by
  intro m
  induction m with
  | zero =>
      intro hagree
      rw [nth_joint, nth_joint, hagree 0 (by omega), hagree 1 (by omega)]
  | succ m ih =>
      intro hagree
      rw [nth_joint, nth_joint, ih (fun j hj => hagree j (by omega)),
        hagree (m + 1) (by omega), hagree (m + 2) (by omega)]

/-- The squared length `v.dot v` is a sum of squares, hence nonnegative. -/
theorem Vec3.dot_self_nonneg (v : Vec3) : 0 ≤ v.dot v := by
  rw [Vec3.dot]
  nlinarith [mul_self_nonneg v.x, mul_self_nonneg v.y, mul_self_nonneg v.z]

/-- The Euclidean norm vanishes exactly on the zero vector. -/
theorem Vec3.norm_eq_zero_iff (v : Vec3) : v.norm = 0 ↔ v = ⟨0, 0, 0⟩ := by
  obtain ⟨a, b, c⟩ := v
  rw [Vec3.norm, Vec3.dot]
  dsimp only
  constructor
  · intro h
    have hd : a * a + b * b + c * c ≤ 0 := Real.sqrt_eq_zero'.mp h
    have ha : a * a = 0 := le_antisymm
      (by nlinarith [mul_self_nonneg b, mul_self_nonneg c]) (mul_self_nonneg a)
    have hb : b * b = 0 := le_antisymm
      (by nlinarith [mul_self_nonneg a, mul_self_nonneg c]) (mul_self_nonneg b)
    have hc : c * c = 0 := le_antisymm
      (by nlinarith [mul_self_nonneg a, mul_self_nonneg b]) (mul_self_nonneg c)
    rw [Vec3.mk.injEq]
    exact ⟨mul_self_eq_zero.mp ha, mul_self_eq_zero.mp hb, mul_self_eq_zero.mp hc⟩
  · intro h
    rw [Vec3.mk.injEq] at h
    obtain ⟨h1, h2, h3⟩ := h
    subst h1; subst h2; subst h3
    norm_num

/-- Dividing a vector of nonzero norm by its own norm yields a unit vector. -/
theorem Vec3.norm_divScalar_self (v : Vec3) (h : v.norm ≠ 0) :
    (v.divScalar v.norm).norm = 1 := by
  have hd : v.norm * v.norm = v.dot v := Real.mul_self_sqrt (Vec3.dot_self_nonneg v)
  have hne : v.dot v ≠ 0 := by
    intro h0
    apply h
    rw [Vec3.norm, h0, Real.sqrt_zero]
  have hq : (v.divScalar v.norm).dot (v.divScalar v.norm) =
      v.dot v / (v.norm * v.norm) := by
    rw [Vec3.divScalar, Vec3.dot, Vec3.dot]
    dsimp only
    field_simp
  rw [Vec3.norm, hq, hd, div_self hne, Real.sqrt_one]

/-- C1 counterexample: with a single loaded point, the solve entry point
does not fail with an error surfaced to the caller; it returns successfully
(`Except.ok`) with the empty list, reporting the insufficiency only through
a printed diagnostic. -/
theorem C1_counterexample_no_error_raised :
    calculate_j_points_from_isaac_p_points loMinimizer oneJointState =
      .ok (oneJointState, []) := by
  rw [calculate_j_points_from_isaac_p_points, if_pos (by decide)]

/-- C1 (amended): for every loaded point chain with fewer than 2 points,
the solve entry point returns successfully with the empty list — it yields
no JointChain, but the failure is not surfaced to the caller as an error. -/
theorem C1_short_input_yields_ok_empty (M : Minimizer) (s : JointConverter)
    (h : s.points.length < 2) :
    calculate_j_points_from_isaac_p_points M s = .ok (s, []) := by
  rw [calculate_j_points_from_isaac_p_points, if_pos h]

/-- C1 witness: the amended statement instantiated on the one-point state. -/
theorem C1_witness : oneJointState.points.length < 2 ∧
    calculate_j_points_from_isaac_p_points loMinimizer oneJointState =
      .ok (oneJointState, []) :=
  ⟨by decide, C1_short_input_yields_ok_empty loMinimizer oneJointState (by decide)⟩

/-- C9: on the insufficient-input path the solve entry point returns the
empty list while leaving the stored joints untouched, so
`get_j_points_as_tuples` still reports the previous solve's joints. -/
theorem C9_short_input_preserves_joints (M : Minimizer) (s : JointConverter)
    (h : s.points.length < 2) :
    ∃ s', calculate_j_points_from_isaac_p_points M s = .ok (s', []) ∧
      s'.joints = s.joints ∧
      get_j_points_as_tuples s' = get_j_points_as_tuples s := by
  refine ⟨s, ?_, rfl, rfl⟩
  rw [calculate_j_points_from_isaac_p_points, if_pos h]

/-- C9 witness: instantiated on a one-point state carrying a leftover joint. -/
theorem C9_witness : oneJointState.points.length < 2 ∧
    ∃ s', calculate_j_points_from_isaac_p_points loMinimizer oneJointState =
        .ok (s', []) ∧
      s'.joints = oneJointState.joints ∧
      get_j_points_as_tuples s' = get_j_points_as_tuples oneJointState :=
  ⟨by decide, C9_short_input_preserves_joints loMinimizer oneJointState (by decide)⟩

/-- C2: for every loaded chain of `N ≥ 2` points, the solve entry point
returns a joint list of length exactly `N`: a loop part of `N - 1` joints
plus one appended terminal joint. -/
theorem C2_solve_length (M : Minimizer) (s : JointConverter)
    (h : 2 ≤ s.points.length) :
    ∃ s' js jsLoop,
      calculate_j_points_from_isaac_p_points M s = .ok (s', js) ∧
      js = jsLoop ++ [s.points[s.points.length - 1]?.getD default] ∧
      jsLoop.length = s.points.length - 1 ∧
      js.length = s.points.length := by
  refine ⟨_, _, (List.range (s.points.length - 1)).map (nth_joint M s.points),
    calculate_spec M s h, rfl, ?_, ?_⟩
  · simp
  · exact solve_joints_length M s.points (by omega)

/-- C2 witness: instantiated on the three-point state. -/
theorem C2_witness : 2 ≤ threePointState.points.length ∧
    ∃ s' js jsLoop,
      calculate_j_points_from_isaac_p_points loMinimizer threePointState =
        .ok (s', js) ∧
      js = jsLoop ++
        [threePointState.points[threePointState.points.length - 1]?.getD default] ∧
      jsLoop.length = threePointState.points.length - 1 ∧
      js.length = threePointState.points.length :=
  ⟨by decide, C2_solve_length loMinimizer threePointState (by decide)⟩

/-- C3: for every loaded chain of `N ≥ 2` points, the last element of the
returned joint list equals the last element of the loaded point chain. -/
theorem C3_terminal_identity (M : Minimizer) (s : JointConverter)
    (h : 2 ≤ s.points.length) :
    ∃ s' js, calculate_j_points_from_isaac_p_points M s = .ok (s', js) ∧
      js ≠ [] ∧ js.getLast? = s.points.getLast? := by
  refine ⟨_, _, calculate_spec M s h, ?_, ?_⟩
  · simp [solve_joints]
  · rw [solve_joints, List.getLast?_concat, List.getLast?_eq_getElem?,
      List.getElem?_eq_getElem (show s.points.length - 1 < s.points.length by omega)]
    rfl

/-- C3 witness: instantiated on the three-point state. -/
theorem C3_witness : 2 ≤ threePointState.points.length ∧
    ∃ s' js,
      calculate_j_points_from_isaac_p_points loMinimizer threePointState =
        .ok (s', js) ∧
      js ≠ [] ∧ js.getLast? = threePointState.points.getLast? :=
  ⟨by decide, C3_terminal_identity loMinimizer threePointState (by decide)⟩

/-- C4: for every loaded chain of `N ≥ 2` points, the first returned joint
has `x` and `y` components exactly `0`, and its `z` component is the abscissa
returned by the bounded scalar minimizer of the first-triangle
angle-difference objective over the fixed interval `[-0.5, 0.5]` (in
particular it lies in that interval). -/
theorem C4_first_joint_on_z_axis (M : Minimizer) (s : JointConverter)
    (h : 2 ≤ s.points.length) :
    ∃ s' js z,
      calculate_j_points_from_isaac_p_points M s = .ok (s', js) ∧
      js[0]? = some ⟨0, 0, z⟩ ∧
      z = M.run (first_joint_objective (s.points[0]?.getD default)
        (s.points[1]?.getD default)) (-0.5) 0.5 ∧
      -0.5 ≤ z ∧ z ≤ 0.5 := by
  refine ⟨_, _, _, calculate_spec M s h, ?_, rfl, ?_, ?_⟩
  · rw [solve_joints_getElem? M s.points 0 (by omega)]
    rfl
  · exact (M.run_mem _ _ _ (by norm_num)).1
  · exact (M.run_mem _ _ _ (by norm_num)).2

/-- C4 witness: instantiated on the three-point state. -/
theorem C4_witness : 2 ≤ threePointState.points.length ∧
    ∃ s' js z,
      calculate_j_points_from_isaac_p_points loMinimizer threePointState =
        .ok (s', js) ∧
      js[0]? = some ⟨0, 0, z⟩ ∧
      z = loMinimizer.run (first_joint_objective
        (threePointState.points[0]?.getD default)
        (threePointState.points[1]?.getD default)) (-0.5) 0.5 ∧
      -0.5 ≤ z ∧ z ≤ 0.5 :=
  ⟨by decide, C4_first_joint_on_z_axis loMinimizer threePointState (by decide)⟩

/-- C5: for every interior joint index `i ≥ 1` (zero-based) with at least
`i + 2` loaded points, the committed joint at position `i` of the solve
output equals `joint_step` of the previous committed joint and the anchors
at positions `i` and `i + 1`, i.e. `J_{i-1} + t · normalize(P_i − J_{i-1})`
with `t` returned by the bounded minimizer of the angle-difference objective
over `[-2, 2]`, depending only on `J_{i-1}`, `P_i` and `P_{i+1}`. -/
theorem C5_interior_joint_formula (M : Minimizer) (s : JointConverter) (i : ℕ)
    (h1 : 1 ≤ i) (h2 : i + 2 ≤ s.points.length) :
    ∃ s' js,
      calculate_j_points_from_isaac_p_points M s = .ok (s', js) ∧
      js[i]? = some (joint_step M (js[i - 1]?.getD default)
        (s.points[i]?.getD default) (s.points[i + 1]?.getD default)) := by
  refine ⟨_, _, calculate_spec M s (by omega), ?_⟩
  rw [solve_joints_getElem? M s.points i (by omega),
    solve_joints_getElem? M s.points (i - 1) (by omega)]
  obtain ⟨k, rfl⟩ : ∃ k, i = k + 1 := ⟨i - 1, by omega⟩
  simp only [Nat.add_sub_cancel]
  rw [nth_joint]
  rfl

/-- C5 witness: instantiated at joint index `1` on the three-point state. -/
theorem C5_witness : 1 ≤ 1 ∧ 1 + 2 ≤ threePointState.points.length ∧
    ∃ s' js,
      calculate_j_points_from_isaac_p_points loMinimizer threePointState =
        .ok (s', js) ∧
      js[1]? = some (joint_step loMinimizer (js[1 - 1]?.getD default)
        (threePointState.points[1]?.getD default)
        (threePointState.points[1 + 1]?.getD default)) :=
  ⟨by decide, by decide,
    C5_interior_joint_formula loMinimizer threePointState 1 (by decide) (by decide)⟩

/-- C6 (two-run prefix stability): perturbing the anchor `P_k` (1-indexed,
`k ≥ 2`) of a loaded chain and re-running the solve leaves every earlier
committed joint `J_i` with `i < k - 1` (1-indexed) unchanged: the committed
prefix does not depend on later anchors. -/
theorem C6_prefix_stability (M : Minimizer) (s : JointConverter)
    (k i : ℕ) (v : Vec3) (hk2 : 2 ≤ k) (hkn : k ≤ s.points.length)
    (hi1 : 1 ≤ i) (hik : i < k - 1) :
    ∃ s1 js1 s2 js2,
      calculate_j_points_from_isaac_p_points M s = .ok (s1, js1) ∧
      calculate_j_points_from_isaac_p_points M
        ⟨s.points.set (k - 1) v, s.joints⟩ = .ok (s2, js2) ∧
      js1[i - 1]? = js2[i - 1]? ∧ js1[i - 1]? ≠ none := by
  have hn : 2 ≤ s.points.length := by omega
  have hn' : 2 ≤ (s.points.set (k - 1) v).length := by
    rw [List.length_set]; omega
  refine ⟨_, _, _, _, calculate_spec M s hn,
    calculate_spec M ⟨s.points.set (k - 1) v, s.joints⟩ hn', ?_, ?_⟩
  · rw [solve_joints_getElem? M s.points (i - 1) (by omega),
      solve_joints_getElem? M (s.points.set (k - 1) v) (i - 1)
        (by rw [List.length_set]; omega)]
    have hagree : ∀ j, j ≤ (i - 1) + 1 →
        s.points[j]? = (s.points.set (k - 1) v)[j]? := by
      intro j hj
      exact (List.getElem?_set_ne (by omega)).symm
    rw [nth_joint_congr M s.points (s.points.set (k - 1) v) (i - 1) hagree]
  · rw [solve_joints_getElem? M s.points (i - 1) (by omega)]
    simp

/-- C6 witness: three points, perturbing `P_3` leaves `J_1` unchanged. -/
theorem C6_witness : 2 ≤ 3 ∧ 3 ≤ threePointState.points.length ∧ 1 ≤ 1 ∧
    1 < 3 - 1 ∧
    ∃ s1 js1 s2 js2,
      calculate_j_points_from_isaac_p_points loMinimizer threePointState =
        .ok (s1, js1) ∧
      calculate_j_points_from_isaac_p_points loMinimizer
        ⟨threePointState.points.set (3 - 1) ⟨5, 5, 5⟩, threePointState.joints⟩ =
        .ok (s2, js2) ∧
      js1[1 - 1]? = js2[1 - 1]? ∧ js1[1 - 1]? ≠ none :=
  ⟨by decide, by decide, by decide, by decide,
    C6_prefix_stability loMinimizer threePointState 3 1 ⟨5, 5, 5⟩
      (by decide) (by decide) (by decide) (by decide)⟩

/-- C7: the cosine argument handed to `arccos` inside
`angle_between_vectors` is clamped into `[-1, 1]` (so `arccos` is never
applied outside its domain), and whenever either input vector has zero norm
the function returns the angle `0` rather than failing. -/
theorem C7_angle_clamp_and_zero_norm (v1 v2 : Vec3) :
    (-1 ≤ np_clip (v1.dot v2 / (v1.norm * v2.norm)) (-1) 1 ∧
      np_clip (v1.dot v2 / (v1.norm * v2.norm)) (-1) 1 ≤ 1) ∧
    (v1.norm = 0 ∨ v2.norm = 0 → angle_between_vectors v1 v2 = 0) := by
  refine ⟨⟨le_min (le_max_right _ _) (by norm_num), min_le_right _ _⟩, ?_⟩
  intro h
  have h0 : v1.norm * v2.norm = 0 := by
    rcases h with h | h <;> simp [h]
  rw [angle_between_vectors]
  rw [if_pos h0]

/-- C7 witness: the zero vector against a unit vector yields angle `0`, and
the clamped cosine argument stays in `[-1, 1]` there. -/
theorem C7_witness :
    angle_between_vectors ⟨0, 0, 0⟩ ⟨1, 0, 0⟩ = 0 :=
  (C7_angle_clamp_and_zero_norm ⟨0, 0, 0⟩ ⟨1, 0, 0⟩).2
    (Or.inl (by
      rw [Vec3.norm, Vec3.dot]
      norm_num))

/-- C8: the direction vector `P_i − J_{i-1}` in `optimize_joint` is divided
by its own norm with no zero-norm guard: the normalized vector is a unit
vector exactly when the pivot anchor differs from the previous committed
joint (on coincidence the model's division degenerates instead), and
`optimize_joint` succeeds with the `joint_step` value regardless, raising no
error on the degenerate geometry. -/
theorem C8_normalization_needs_distinct_pivot :
    (∀ j_prev p_prev : Vec3,
      ((p_prev.sub j_prev).divScalar (p_prev.sub j_prev).norm).norm = 1 ↔
        p_prev ≠ j_prev) ∧
    (∀ (M : Minimizer) (s : JointConverter) (i : ℕ), 1 ≤ i →
      i + 2 ≤ s.points.length → i - 1 < s.joints.length →
      ∃ s' jc, optimize_joint M s i = .ok (s', jc) ∧
        jc = joint_step M (s.joints[i - 1]?.getD default)
          (s.points[i]?.getD default) (s.points[i + 1]?.getD default)) := by
  constructor
  · intro j_prev p_prev
    constructor
    · intro h1 hpj
      subst hpj
      have hzero : p_prev.sub p_prev = (⟨0, 0, 0⟩ : Vec3) := by
        rw [Vec3.sub, Vec3.mk.injEq]
        norm_num
      rw [hzero] at h1
      have : ((⟨0, 0, 0⟩ : Vec3).divScalar (Vec3.norm ⟨0, 0, 0⟩)).norm = 0 := by
        rw [Vec3.divScalar, Vec3.norm, Vec3.dot]
        norm_num
      rw [this] at h1
      exact one_ne_zero h1.symm
    · intro hne
      apply Vec3.norm_divScalar_self
      intro h0
      apply hne
      have hz := (Vec3.norm_eq_zero_iff _).mp h0
      rw [Vec3.sub, Vec3.mk.injEq] at hz
      ext <;> linarith [hz.1, hz.2.1, hz.2.2]
  · intro M s i hi hlen hjlen
    obtain ⟨k, rfl⟩ : ∃ k, i = k + 1 := ⟨i - 1, by omega⟩
    simp only [Nat.add_sub_cancel] at hjlen ⊢
    have hp1 : s.points[k + 1]? = some s.points[k + 1] :=
      List.getElem?_eq_getElem (by omega)
    have hp2 : s.points[k + 1 + 1]? = some s.points[k + 1 + 1] :=
      List.getElem?_eq_getElem (by omega)
    have hj : s.joints[k]? = some s.joints[k] :=
      List.getElem?_eq_getElem hjlen
    rw [optimize_joint]
    rw [if_neg (by omega), if_neg (by omega)]
    simp only [Nat.add_sub_cancel]
    rw [hp1, hp2, hj]
    dsimp only
    exact ⟨_, _, rfl, rfl⟩

/-- C8 witness: a pivot distinct from the previous joint normalizes to a
unit direction. -/
theorem C8_witness :
    ((Vec3.sub ⟨1, 0, 0⟩ ⟨0, 0, 0⟩).divScalar
      (Vec3.sub ⟨1, 0, 0⟩ ⟨0, 0, 0⟩).norm).norm = 1 :=
  (C8_normalization_needs_distinct_pivot.1 ⟨0, 0, 0⟩ ⟨1, 0, 0⟩).mpr (by
    intro h
    rw [Vec3.mk.injEq] at h
    exact one_ne_zero h.1)

/-- C10: `angle_between_vectors` is total and always returns a value in the
closed interval `[0, 180]` degrees. -/
theorem C10_angle_range (v1 v2 : Vec3) :
    0 ≤ angle_between_vectors v1 v2 ∧ angle_between_vectors v1 v2 ≤ 180 := by
  rw [angle_between_vectors]
  by_cases h : v1.norm * v2.norm = 0
  · rw [if_pos h]
    norm_num
  · rw [if_neg h]
    have harc0 : 0 ≤ Real.arccos (np_clip (v1.dot v2 / (v1.norm * v2.norm)) (-1) 1) :=
      Real.arccos_nonneg _
    have harcpi : Real.arccos (np_clip (v1.dot v2 / (v1.norm * v2.norm)) (-1) 1) ≤
        Real.pi := Real.arccos_le_pi _
    have hpi : 0 < Real.pi := Real.pi_pos
    constructor
    · positivity
    · rw [div_le_iff₀ hpi]
      nlinarith
